import Mathlib

/-!
Verification of the retrieval core of the pdf-rag-api backend.

The Python source is shallowly embedded: Python strings are modelled as
`List Char`, floating-point arithmetic as exact arithmetic (`ℚ` for vector
components, `ℝ` for cosine-similarity scores), database/provider calls as
explicit inputs, raised-and-propagated exceptions as `Except`, and the
status store as explicit state passing.
-/

namespace PdfRag

/-! ## Text: Python strings as character lists -/

/-- A Python string, modelled as its list of characters. -/
abbrev Text := List Char

/-- Whitespace test used by `str.strip` (ASCII whitespace). -/
def isWs (c : Char) : Bool := c.isWhitespace

/-- Models Python `str.strip()`: remove leading and trailing whitespace. -/
def strip (t : Text) : Text :=
  ((t.dropWhile isWs).reverse.dropWhile isWs).reverse

/-- Models Python `text.split('\n\n')`: split on every non-overlapping
occurrence of the two-character separator, scanning left to right,
keeping empty pieces (`"".split(s) == [""]`). -/
def splitNN : Text → List Text
  | [] => [[]]
  | '\n' :: '\n' :: rest => [] :: splitNN rest
  | c :: rest =>
    match splitNN rest with
    | [] => [[c]]
    | p :: ps => (c :: p) :: ps

/-- The paragraph separator `"\n\n"`. -/
def nnSep : Text := ['\n', '\n']

/-- Models Python `'\n\n'.join(l)`. -/
def joinNN : List Text → Text
  | [] => []
  | p :: ps => ps.foldl (fun acc q => acc ++ nnSep ++ q) p

/-! ## `processing.py`: token counting and the paragraph chunker -/

/-- `processing.count_tokens`: `len(text) // 4`. -/
def count_tokens (t : Text) : Nat := t.length / 4

/-- The paragraph list the chunker works over:
`[p.strip() for p in text.split('\n\n') if p.strip()]`. -/
def normParas (t : Text) : List Text :=
  ((splitNN t).map strip).filter (fun p => p ≠ [])

/-- A chunk record produced by `processing.chunk_text`
(`{'text': ..., 'token_count': ..., 'chunk_number': ...}`); the
`embedding` field is attached later by `generate_embeddings`
(Python: `chunk['embedding']`, absent / `None` until then). -/
structure PChunk where
  text : Text
  token_count : Nat
  chunk_number : Nat
  embedding : Option (List ℚ) := none
  deriving Repr, DecidableEq

/-- State of the paragraph-accumulation loop in `processing.chunk_text`:
emitted chunks, the current paragraph list, and its accumulated length. -/
abbrev ChunkState := List PChunk × List Text × Nat

/-- One iteration of the `for para in paragraphs` loop of
`processing.chunk_text`. -/
def chunkStep (max_tokens overlap : Nat) : ChunkState → Text → ChunkState :=
  fun s para =>
    let pl := count_tokens para
    let s' :=
      if s.2.2 + pl > max_tokens ∧ s.2.1 ≠ [] then
        let chunks' := s.1 ++ [{ text := joinNN s.2.1, token_count := s.2.2,
                                 chunk_number := s.1.length + 1 }]
        if 0 < overlap then
          -- current_chunk[-overlap:] on a non-empty list
          let otext := joinNN (s.2.1.drop (s.2.1.length - overlap))
          (chunks', [otext], count_tokens otext)
        else
          (chunks', [], 0)
      else s
    (s'.1, s'.2.1 ++ [para], s'.2.2 + pl)

/-- `processing.chunk_text(text, max_tokens, overlap)`. -/
def chunk_text (text : Text) (max_tokens overlap : Nat) : List PChunk :=
  if strip text = [] then []
  else
    let paragraphs := normParas text
    let s := paragraphs.foldl (chunkStep max_tokens overlap) ([], [], 0)
    if s.2.1 ≠ [] then
      s.1 ++ [{ text := joinNN s.2.1, token_count := s.2.2,
                chunk_number := s.1.length + 1 }]
    else s.1

/-! ### Instrumented view of the paragraph chunker

The same loop, additionally recording for every emitted chunk which
entry was carried over from the previous chunk (the overlap) and which
paragraphs are new.  `iProject` maps the instrumented state back to the
source state, and the two runs are proved to coincide. -/

/-- Instrumented record of one emitted chunk: the carried-over overlap
entry (if any), the new paragraph entries, and the recorded token
count. -/
structure DoneChunk where
  carry : Option Text
  news : List Text
  tc : Nat
  deriving Repr, DecidableEq

/-- The entry list (`current_chunk` in the source) a done chunk was
joined from. -/
def DoneChunk.entries (d : DoneChunk) : List Text :=
  d.carry.toList ++ d.news

/-- The text of a done chunk, exactly as the source joins it. -/
def DoneChunk.ctext (d : DoneChunk) : Text :=
  joinNN d.entries

/-- Instrumented loop state: emitted chunks, pending carried entry,
current new paragraphs, accumulated length. -/
structure IState where
  done : List DoneChunk
  carry : Option Text
  news : List Text
  len : Nat

/-- One instrumented iteration, mirroring `chunkStep`. -/
def iStep (max_tokens overlap : Nat) (s : IState) (para : Text) : IState :=
  let pl := count_tokens para
  let s' :=
    if s.len + pl > max_tokens ∧ (s.carry.toList ++ s.news) ≠ [] then
      let cur := s.carry.toList ++ s.news
      let done' := s.done ++ [⟨s.carry, s.news, s.len⟩]
      if 0 < overlap then
        let otext := joinNN (cur.drop (cur.length - overlap))
        (⟨done', some otext, [], count_tokens otext⟩ : IState)
      else ⟨done', none, [], 0⟩
    else s
  ⟨s'.done, s'.carry, s'.news ++ [para], s'.len + pl⟩

/-- Projection from instrumented state to the source loop state. -/
def iProject (s : IState) : ChunkState :=
  (s.done.enum.map fun p =>
    ({ text := p.2.ctext, token_count := p.2.tc, chunk_number := p.1 + 1 } : PChunk),
   s.carry.toList ++ s.news, s.len)

/-- The instrumented run over the paragraphs of a text. -/
def iRun (t : Text) (max_tokens overlap : Nat) : IState :=
  (normParas t).foldl (iStep max_tokens overlap) ⟨[], none, [], 0⟩

/-- Instrumented view of the chunker output: the emitted chunks of
`chunk_text`, with their carried/new decomposition. -/
def iChunks (t : Text) (max_tokens overlap : Nat) : List DoneChunk :=
  let s := iRun t max_tokens overlap
  if (s.carry.toList ++ s.news) ≠ [] then s.done ++ [⟨s.carry, s.news, s.len⟩]
  else s.done

/-- The overlap entry carried into each chunk of `chunk_text` from its
predecessor (`none` for the first chunk and when `overlap = 0`). -/
def carriedOpts (t : Text) (max_tokens overlap : Nat) : List (Option Text) :=
  (iChunks t max_tokens overlap).map (·.carry)

/-- Removal of the carried-over overlap from the front of a chunk: when
an overlap entry was carried in, drop it together with the separator
that follows it; the first chunk (no carry) is kept whole. -/
def dropCarried (oc : Option Text) (c : PChunk) : Text :=
  match oc with
  | none => c.text
  | some s => c.text.drop (s.length + 2)

/-! ## `pdf_parser.py`: the fixed-size character-window chunkers

The `while start < length` loops advance `start` by
`end - chunk_overlap` (clamped at 0, which truncated `Nat` subtraction
gives directly).  The loops are embedded with explicit fuel; `none`
means the fuel ran out, i.e. the source loop has not terminated within
that many iterations. -/

/-- The loop body of `pdf_parser.chunk_text`, with explicit fuel. -/
def pdfChunkLoop (chunk_size chunk_overlap : Nat) (text : Text) :
    Nat → Nat → List Text → Option (List Text)
  | 0, _, _ => none
  | fuel + 1, start, acc =>
    if start < text.length then
      let e := min (start + chunk_size) text.length
      let chunk := strip ((text.drop start).take (e - start))
      let acc' := if chunk ≠ [] then acc ++ [chunk] else acc
      if e = text.length then some acc'
      else pdfChunkLoop chunk_size chunk_overlap text fuel (e - chunk_overlap) acc'
    else some acc

/-- `pdf_parser.chunk_text(text, chunk_size, chunk_overlap)`, run with
`length + 1` units of fuel (enough for any terminating run, since each
iteration strictly increases `start`). -/
def pdf_chunk_text (text : Text) (chunk_size chunk_overlap : Nat) :
    Option (List Text) :=
  if text = [] then some []
  else pdfChunkLoop chunk_size chunk_overlap text (text.length + 1) 0 []

/-- A chunk tuple `(segment, page_idx, start, end)` emitted by
`pdf_parser.extract_text_chunks_from_pdf_bytes`. -/
structure PageChunk where
  segment : Text
  page_idx : Nat
  start : Nat
  stop : Nat
  deriving Repr, DecidableEq

/-- The per-page `while start < length` loop of
`pdf_parser.extract_text_chunks_from_pdf_bytes`, with explicit fuel. -/
def pageChunkLoop (chunk_size chunk_overlap : Nat) (page_text : Text)
    (page_idx : Nat) :
    Nat → Nat → List PageChunk → Option (List PageChunk)
  | 0, _, _ => none
  | fuel + 1, start, acc =>
    if start < page_text.length then
      let e := min (start + chunk_size) page_text.length
      let seg := strip ((page_text.drop start).take (e - start))
      let acc' := if seg ≠ [] then
          acc ++ [{ segment := seg, page_idx := page_idx, start := start, stop := e }]
        else acc
      if e = page_text.length then some acc'
      else pageChunkLoop chunk_size chunk_overlap page_text page_idx fuel
             (e - chunk_overlap) acc'
    else some acc

/-- `pdf_parser.extract_text_chunks_from_pdf_bytes`, given the per-page
texts already extracted by `pdfplumber` (PDF parsing is an external
dependency; pages are enumerated from 1 as in the source). -/
def extract_text_chunks (pages : List Text) (chunk_size chunk_overlap : Nat) :
    Option (List PageChunk) :=
  (List.enumFrom 1 pages).foldl
    (fun acc (p : Nat × Text) =>
      match acc with
      | none => none
      | some res =>
        pageChunkLoop chunk_size chunk_overlap p.2 p.1 (p.2.length + 1) 0 res)
    (some [])

/-! ## `database.py`: documents, chunks and vector similarity search -/

/-- Document processing status (`models.document.DocumentStatus`). -/
inductive DocStatus
  | pending | queued | processing | completed | failed
  deriving DecidableEq, Repr

/-- The part of a document record the retrieval core reads. -/
structure Document where
  status : DocStatus
  deriving DecidableEq, Repr

/-- A stored chunk row of `document_chunks` as read back by
`get_document_chunks`; `chunk_number` is the sequence index kept in the
chunk metadata, `embedding` the stored vector (string-encoded vectors
are modelled by the list they parse to; `none` models a null/absent
embedding and `some []` an empty one — both falsy in Python). -/
structure Chunk where
  id : Nat
  document_id : String
  content : String
  chunk_number : Nat
  embedding : Option (List ℚ)
  deriving DecidableEq, Repr

/-- A similarity result row built by `search_chunks`. -/
structure SearchResult where
  id : Nat
  document_id : String
  content : String
  chunk_number : Nat
  similarity : ℝ

/-- Dot product of two vectors (`np.dot` on equal-length 1-D arrays;
on mismatched lengths the source call raises, which the per-chunk
handler turns into a skip before this function is ever applied). -/
def dotQ (a b : List ℚ) : ℚ := (List.zipWith (· * ·) a b).sum

/-- Squared Euclidean norm; `norm(v) == 0` in the source is exactly
`normSq v = 0` in exact arithmetic. -/
def normSq (a : List ℚ) : ℚ := (a.map fun x => x * x).sum

/-- Cosine similarity `dot(q, c) / (norm(q) * norm(c))`, in exact real
arithmetic. -/
noncomputable def cosSim (q e : List ℚ) : ℝ :=
  (dotQ q e : ℚ) / (Real.sqrt (normSq q) * Real.sqrt (normSq e))

/-- The per-chunk body of the scoring loop in
`DatabaseService.search_chunks` (lines 354–391): skip chunks with a
falsy embedding, skip on a zero-norm query or chunk vector, skip when
the dot product raises on a dimensionality mismatch (the per-chunk
`except` catches it), otherwise score and keep the chunk iff its
similarity clears the threshold.  `none` means the chunk contributes no
result. -/
noncomputable def scoreChunk (query : List ℚ) (threshold : ℚ) (c : Chunk) :
    Option SearchResult :=
  match c.embedding with
  | none => none
  | some e =>
    if e = [] then none
    else if normSq query = 0 ∨ normSq e = 0 then none
    else if e.length ≠ query.length then none
    else
      let sim := cosSim query e
      if (threshold : ℝ) ≤ sim then
        some { id := c.id, document_id := c.document_id, content := c.content,
               chunk_number := c.chunk_number, similarity := sim }
      else none

/-- Python's `list.sort(key=..., reverse=True)` is a stable descending
sort; as a function of the input list this is exactly stable insertion
sort with the relation "goes before": `a` before `b` iff
`b.similarity ≤ a.similarity`. -/
noncomputable def sortBySimilarity (l : List SearchResult) : List SearchResult :=
  l.insertionSort fun a b => b.similarity ≤ a.similarity

instance : IsTotal SearchResult fun a b => b.similarity ≤ a.similarity :=
  ⟨fun a b => le_total b.similarity a.similarity⟩

instance : IsTrans SearchResult fun a b => b.similarity ≤ a.similarity :=
  ⟨fun _ _ _ hab hbc => le_trans hbc hab⟩

/-- `DatabaseService.search_chunks(document_id, query_embedding, limit,
similarity_threshold)` (the second definition, lines 313–428, which is
the one Python binds).  Its two database reads — `get_document` and
`get_document_chunks` — are passed in as results (`Except.error`
modelling a raised database error, which the enclosing handlers turn
into `[]`). -/
noncomputable def search_chunks (docRes : Except String (Option Document))
    (chunksRes : Except String (List Chunk)) (query : List ℚ)
    (limit : Nat) (threshold : ℚ) : List SearchResult :=
  match docRes with
  | .error _ => []
  | .ok none => []
  | .ok (some d) =>
    if d.status ≠ .completed then []
    else
      match chunksRes with
      | .error _ => []
      | .ok chunks =>
        if chunks = [] then []
        else
          let results := chunks.filterMap (scoreChunk query threshold)
          (sortBySimilarity results).take limit

/-! ## `chat.py`: embedding client and response assembler

Provider behaviour is an explicit input (`ChatEnv`), and every outbound
provider call is recorded in a trace, so "zero provider calls" is a
statement about the trace. -/

/-- One outbound provider call. -/
inductive ProviderCall
  | embedCall | generateCall
  deriving DecidableEq, Repr

/-- The external collaborators of the chat path: the document store
read, the chunk store read, the embedding provider (indexed by attempt
number, so retries can observe different outcomes) and the generation
provider. -/
structure ChatEnv where
  getDocument : Except String (Option Document)
  getChunks : Except String (List Chunk)
  embedContent : Nat → List String → Except String (List (List ℚ))
  generate : String → Except String String

/-- Batching of `get_embeddings`: `for i in range(0, len(texts), 10)`,
written with structural fuel (the list length bounds the number of
batches). -/
def batchedAux : Nat → List String → List (List String)
  | 0, _ => []
  | _, [] => []
  | fuel + 1, l => l.take 10 :: batchedAux fuel (l.drop 10)

/-- The batch list `texts[i:i+10]` for `i = 0, 10, 20, ...`. -/
def batched (l : List String) : List (List String) := batchedAux l.length l

/-- One attempt of `get_embeddings`: embed every batch in order,
extending the result list; the first raising batch aborts the attempt.
Each provider call is recorded in the trace. -/
def embedBatches (env : ChatEnv) (attempt : Nat) :
    List (List String) → List ProviderCall →
    Except String (List (List ℚ)) × List ProviderCall
  | [], tr => (.ok [], tr)
  | b :: bs, tr =>
    let tr' := tr ++ [ProviderCall.embedCall]
    match env.embedContent attempt b with
    | .error e => (.error e, tr')
    | .ok vs =>
      match embedBatches env attempt bs tr' with
      | (.error e, tr'') => (.error e, tr'')
      | (.ok rest, tr'') => (.ok (vs ++ rest), tr'')

/-- The retry loop of `chat.get_embeddings`: up to `max_retries`
attempts; when they are exhausted the last exception is re-raised. -/
def getEmbedsLoop (env : ChatEnv) (texts : List String) :
    Nat → Nat → String → List ProviderCall →
    Except String (List (List ℚ)) × List ProviderCall
  | 0, _, lastErr, tr => (.error lastErr, tr)
  | fuel + 1, attempt, _lastErr, tr =>
    match embedBatches env attempt (batched texts) tr with
    | (.ok vs, tr') => (.ok vs, tr')
    | (.error e, tr') => getEmbedsLoop env texts fuel (attempt + 1) e tr'

/-- `chat.get_embeddings(texts, max_retries=3)`. -/
def get_embeddings (env : ChatEnv) (texts : List String) (max_retries : Nat) :
    Except String (List (List ℚ)) × List ProviderCall :=
  getEmbedsLoop env texts max_retries 0 "no attempt was made" []

/-- `chat.retrieve_relevant_chunks(document_id, query, top_k)`: embed
the query, search, and catch every exception into `[]` — including a
failing embedding provider and the `IndexError` of `[...][0]` on an
empty embedding list. -/
noncomputable def retrieve_relevant_chunks (env : ChatEnv) (query : String)
    (top_k : Nat) : List SearchResult × List ProviderCall :=
  match get_embeddings env [query] 3 with
  | (.error _, tr) => ([], tr)
  | (.ok embs, tr) =>
    match embs.head? with
    | none => ([], tr)
    | some qe => (search_chunks env.getDocument env.getChunks qe top_k (1 / 2), tr)

/-- User-facing message when the document record cannot be read. -/
def docErrorMsg : String :=
  "Error accessing the document. Please try again or contact support if the issue persists."

/-- User-facing message when the document does not exist. -/
def notFoundMsg : String :=
  "The requested document could not be found. It may have been deleted or is not accessible."

/-- User-facing "not ready" message for a document whose status is not
completed. -/
def notReadyMsg : String :=
  "The document is still being processed. Please try again in a moment."

/-- User-facing message when retrieval produced no chunks. -/
def noRelevantMsg : String :=
  "I couldn\x27t find any relevant information in the document to answer your question. Try rephrasing your question or checking if the document contains the information you\x27re looking for."

/-- User-facing "search temporarily unavailable" message, emitted only
if the retrieval step itself raises. -/
def searchUnavailableMsg : String :=
  "I had trouble searching the document. The search service might be temporarily unavailable."

/-- User-facing message when the generation provider raises. -/
def aiErrorMsg : String :=
  "I\x27m having trouble processing your request with the AI model. This might be a temporary issue. Please try again in a moment."

/-- Replacement text when the generation provider returns an empty
response. -/
def emptyRespMsg : String :=
  "I\x27m having trouble generating a response. The document might not contain enough information to answer your question."

/-- The RAG prompt assembled from context and question. -/
def promptOf (context question : String) : String :=
  "Context from the document:\n" ++ context ++ "\n\nQuestion: " ++ question ++
    "\n\nAnswer the question based only on the context above. If the context doesn\x27t contain the answer, say \"I don\x27t have enough information to answer that."

/-- The response shape of `chat.generate_response`. -/
structure ChatResponse where
  message : String
  sources : List String
  deriving DecidableEq, Repr

/-- `chat.generate_response(message, document_id, user_id)`.  The chat
log write has no observable effect (its errors are swallowed) and is
omitted; the second component is the trace of outbound provider
calls. -/
noncomputable def generate_response (env : ChatEnv) (message : String) :
    ChatResponse × List ProviderCall :=
  match env.getDocument with
  | .error _ => ({ message := docErrorMsg, sources := [] }, [])
  | .ok none => ({ message := notFoundMsg, sources := [] }, [])
  | .ok (some d) =>
    if d.status ≠ .completed then ({ message := notReadyMsg, sources := [] }, [])
    else
      match retrieve_relevant_chunks env message 3 with
      | (relevant, tr) =>
        if relevant.isEmpty then ({ message := noRelevantMsg, sources := [] }, tr)
        else
          let context := String.intercalate "\n\n---\n\n" (relevant.map (·.content))
          let tr' := tr ++ [ProviderCall.generateCall]
          match env.generate (promptOf context message) with
          | .error _ => ({ message := aiErrorMsg, sources := [] }, tr')
          | .ok txt =>
            let txt' := if txt = "" then emptyRespMsg else txt
            ({ message := txt',
               sources := relevant.map fun c => c.content.take 200 ++ "..." }, tr')

/-! ## `processing.py`: embedding assignment and document ingestion -/

/-- `processing.generate_embeddings(chunks)`: the provider response is
an input — `Except.error` a raised provider exception (re-raised),
`ok none` a falsy/malformed response dict (missing "embedding" key,
turned into a raised `ValueError`), `ok (some embs)` the vector list of
the response.  Each chunk receives `embs[i]` when `i < len(embs)` and
`None` otherwise — a short batch is padded silently. -/
def generate_embeddings (chunks : List PChunk)
    (resp : Except String (Option (List (List ℚ)))) :
    Except String (List PChunk) :=
  if chunks = [] then .ok []
  else
    match resp with
    | .error e => .error e
    | .ok none => .error "Invalid response from Gemini embedding API"
    | .ok (some embs) =>
      .ok (chunks.enum.map fun p => { p.2 with embedding := embs.get? p.1 })

/-- Persisted document state: status plus the stored error message
(messages are `Text` so truncation lengths can be reasoned about). -/
structure DocState where
  status : DocStatus
  error_message : Option Text
  deriving DecidableEq, Repr

/-- The external collaborators of `process_document`: the document
read, the storage download, PDF text extraction, the embedding
provider response, per-chunk store outcomes, and whether status updates
succeed (`updateOk = false` models a status store whose update calls
raise). -/
structure ProcEnv where
  getDoc : Except Text (Option Document)
  download : Except Text Text
  extract : Except Text Text
  provider : Except String (Option (List (List ℚ)))
  storeOk : Nat → Bool
  updateOk : Bool

/-- `DatabaseService.update_document_status`, as `process_document`
sees it: on success the new status is persisted (an absent error
message leaves the stored one untouched); on failure the state is
unchanged and the caller observes a raised exception (second component
`false`). -/
def updateStatus (env : ProcEnv) (s : DocState) (st : DocStatus)
    (err : Option Text) : DocState × Bool :=
  if env.updateOk then
    ({ status := st,
       error_message := match err with | some e => some e | none => s.error_message },
     true)
  else (s, false)

/-- The outer exception handler of `process_document`: set status
`failed` with message `"Fatal error: " + str(e)[:500]` (an update
failure here is swallowed), then re-raise. -/
def outerFail (env : ProcEnv) (s : DocState) (e : Text) :
    Except Text Unit × DocState :=
  (.error e, (updateStatus env s .failed (some ("Fatal error: ".toList ++ e.take 500))).1)

/-- The inner exception handler of `process_document`: set status
`failed` with the truncated processing message, re-raise the original
error — which the outer handler then catches again. -/
def innerFail (env : ProcEnv) (s : DocState) (e : Text) :
    Except Text Unit × DocState :=
  let msg := ("Error during document processing: ".toList ++ e).take 500
  outerFail env (updateStatus env s .failed (some msg)).1 e

/-- `processing.process_document(document_id)` over its collaborators
and the document's persisted state.  The per-chunk store loop swallows
individual failures and has no effect on the document state. -/
def process_document (env : ProcEnv) (s0 : DocState) :
    Except Text Unit × DocState :=
  match updateStatus env s0 .processing none with
  | (_, false) =>
    -- the initial PROCESSING update raised; the outer handler catches
    -- it, its own FAILED update also raises and is swallowed, re-raise
    (.error "status update failed".toList, s0)
  | (s1, true) =>
    match env.getDoc with
    | .error e => outerFail env s1 e
    | .ok none => outerFail env s1 "Document not found in database".toList
    | .ok (some _) =>
      match env.download with
      | .error e => innerFail env s1 e
      | .ok bytes =>
        if bytes = [] then
          innerFail env s1 "Failed to download file from storage".toList
        else
          match env.extract with
          | .error e => innerFail env s1 e
          | .ok text =>
            if strip text = [] then
              innerFail env s1 "No text extracted from PDF".toList
            else
              let chunks := chunk_text text 800 100
              if chunks = [] then
                innerFail env s1 "No chunks generated from text".toList
              else
                match generate_embeddings chunks env.provider with
                | .error e => innerFail env s1 e.toList
                | .ok withEmb =>
                  let valid := withEmb.filter fun c => c.embedding ≠ none
                  if valid = [] then
                    innerFail env s1 "No valid embeddings generated for any chunks".toList
                  else
                    match updateStatus env s1 .completed none with
                    | (s2, true) => (.ok (), s2)
                    | (_, false) =>
                      -- the COMPLETED update raised inside the inner try
                      innerFail env s1 "status update failed".toList

/-! ## Concrete inputs used by witnesses -/

/-- A stored chunk with no embedding. -/
def chunkNoEmb : Chunk :=
  { id := 1, document_id := "d", content := "x", chunk_number := 1,
    embedding := none }

/-- A stored chunk orthogonal to the query `[1, 0]`. -/
def chunkOrtho : Chunk :=
  { id := 2, document_id := "d", content := "y", chunk_number := 1,
    embedding := some [0, 1] }

/-- A stored chunk aligned with the query `[1, 0]`. -/
def chunkAligned : Chunk :=
  { id := 1, document_id := "d", content := "a", chunk_number := 1,
    embedding := some [1, 0] }

/-- A stored chunk with a zero-norm embedding. -/
def chunkZeroNorm : Chunk :=
  { id := 2, document_id := "d", content := "bad", chunk_number := 2,
    embedding := some [0, 0] }

/-- A completed document record. -/
def completedDoc : Document := { status := .completed }

/-- A chat environment whose embedding provider raises on every call
(document present and completed, chunk store empty, generation
irrelevant). -/
def embedDownEnv : ChatEnv :=
  { getDocument := .ok (some completedDoc), getChunks := .ok [],
    embedContent := fun _ _ => .error "provider down",
    generate := fun _ => .ok "unused" }

/-! ## Helper lemmas about the paragraph join -/

theorem foldlJoin_append (l : List Text) (a b : Text) :
    l.foldl (fun acc q => acc ++ nnSep ++ q) (a ++ b) =
      a ++ l.foldl (fun acc q => acc ++ nnSep ++ q) b := by
  induction l generalizing b with
  | nil => rfl
  | cons q l ih =>
    simp only [List.foldl_cons]
    rw [show a ++ b ++ nnSep ++ q = a ++ (b ++ nnSep ++ q) by
      simp [List.append_assoc]]
    exact ih (b ++ nnSep ++ q)

theorem joinNN_cons (p : Text) (l : List Text) (h : l ≠ []) :
    joinNN (p :: l) = p ++ nnSep ++ joinNN l := by
  cases l with
  | nil => cases h rfl
  | cons q l =>
    show (q :: l).foldl (fun acc r => acc ++ nnSep ++ r) p = _
    simp only [List.foldl_cons, joinNN]
    exact foldlJoin_append l (p ++ nnSep) q

theorem joinNN_append (l1 l2 : List Text) (h1 : l1 ≠ []) (h2 : l2 ≠ []) :
    joinNN (l1 ++ l2) = joinNN l1 ++ nnSep ++ joinNN l2 := by
  induction l1 with
  | nil => cases h1 rfl
  | cons x l1 ih =>
    cases hl : l1 with
    | nil => simpa using joinNN_cons x l2 h2
    | cons y l1' =>
      rw [← hl]
      have h1' : l1 ≠ [] := by simp [hl]
      have h12 : l1 ++ l2 ≠ [] := by simp [hl]
      rw [List.cons_append, joinNN_cons x (l1 ++ l2) h12, ih h1',
        joinNN_cons x l1 h1']
      simp [List.append_assoc]

theorem joinNN_flatten (ls : List (List Text)) (h : ∀ l ∈ ls, l ≠ []) :
    joinNN (ls.map joinNN) = joinNN ls.flatten := by
  induction ls with
  | nil => rfl
  | cons l ls ih =>
    by_cases hls : ls = []
    · subst hls; simp [joinNN]
    · have hl : l ≠ [] := h l (by simp)
      have hflat : ls.flatten ≠ [] := by
        cases ls with
        | nil => cases hls rfl
        | cons m rest =>
          have hm : m ≠ [] := h m (by simp)
          simp [hm]
      have hmap : ls.map joinNN ≠ [] := by simp [hls]
      rw [List.map_cons, joinNN_cons _ _ hmap, ih fun x hx => h x (by simp [hx]),
        List.flatten_cons, joinNN_append l ls.flatten hl hflat]

theorem joinNN_drop_suffix (E : List Text) (k : Nat) :
    joinNN (E.drop k) <:+ joinNN E := by
  by_cases htake : E.take k = []
  · have : E.drop k = E := by
      have := List.take_append_drop k E
      rw [htake] at this; simpa using this
    rw [this]
  · by_cases hdrop : E.drop k = []
    · exact ⟨joinNN E, by simp [hdrop, joinNN]⟩
    · have hE : E = E.take k ++ E.drop k := (List.take_append_drop k E).symm
      refine ⟨joinNN (E.take k) ++ nnSep, ?_⟩
      rw [← joinNN_append _ _ htake hdrop, ← hE]

/-! ## Whitespace facts and the chunker glue -/

theorem all_ws_of_strip_nil (t : Text) (h : strip t = []) :
    ∀ c ∈ t, isWs c = true := by
  rw [strip] at h
  have h2 : (t.dropWhile isWs).reverse.dropWhile isWs = [] := by
    have := congrArg List.reverse h
    simpa using this
  have h4 : ∀ x ∈ t.dropWhile isWs, isWs x = true := by
    intro x hx
    exact List.dropWhile_eq_nil_iff.mp h2 x (List.mem_reverse.mpr hx)
  intro c hc
  rw [← List.takeWhile_append_dropWhile (p := isWs) (l := t)] at hc
  rcases List.mem_append.mp hc with h | h
  · exact List.mem_takeWhile_imp h
  · exact h4 c h

theorem strip_nil_of_all_ws (t : Text) (h : ∀ c ∈ t, isWs c = true) :
    strip t = [] := by
  rw [strip, List.dropWhile_eq_nil_iff.mpr h]
  rfl

theorem splitNN_chars (t : Text) : ∀ p ∈ splitNN t, ∀ c ∈ p, c ∈ t := by
  induction t using splitNN.induct with
  | case1 =>
    intro p hp c hc
    rw [splitNN] at hp
    rcases List.mem_singleton.mp hp with rfl
    cases hc
  | case2 rest ih =>
    intro p hp c hc
    rw [splitNN] at hp
    rcases List.mem_cons.mp hp with rfl | hp2
    · cases hc
    · have := ih p hp2 c hc
      simp [this]
  | case3 a rest hne hsp ih =>
    intro p hp c hc
    rw [splitNN, hsp] at hp
    rotate_left
    · exact hne
    rcases List.mem_singleton.mp hp with rfl
    rcases List.mem_singleton.mp hc with rfl
    simp
  | case4 a rest hne q qs hsp ih =>
    intro p hp c hc
    rw [splitNN, hsp] at hp
    rotate_left
    · exact hne
    rcases List.mem_cons.mp hp with rfl | hp2
    · rcases List.mem_cons.mp hc with rfl | hc2
      · simp
      · have := ih q (by rw [hsp]; simp) c hc2
        simp [this]
    · have := ih p (by rw [hsp]; simp [hp2]) c hc
      simp [this]

theorem normParas_nil_of_strip_nil (t : Text) (h : strip t = []) :
    normParas t = [] := by
  rw [normParas]
  rw [List.filter_eq_nil_iff]
  intro p hp
  obtain ⟨q, hq, rfl⟩ := List.mem_map.mp hp
  have hws : ∀ c ∈ q, isWs c = true := by
    intro c hc
    exact all_ws_of_strip_nil t h c (splitNN_chars t q hq c hc)
  simp [strip_nil_of_all_ws q hws]

theorem iStep_project (m o : Nat) (s : IState) (para : Text) :
    chunkStep m o (iProject s) para = iProject (iStep m o s para) := by
  rw [chunkStep, iStep, iProject]
  dsimp only
  by_cases hcond : s.len + count_tokens para > m ∧ s.carry.toList ++ s.news ≠ []
  · rw [if_pos hcond, if_pos hcond]
    by_cases ho : 0 < o
    · rw [if_pos ho, if_pos ho]
      rw [iProject]
      dsimp only
      refine congrArg (fun l => (l, _, _)) ?_
      rw [List.enum_append]
      simp [DoneChunk.ctext, DoneChunk.entries]
    · rw [if_neg ho, if_neg ho]
      rw [iProject]
      dsimp only
      refine congrArg (fun l => (l, _, _)) ?_
      rw [List.enum_append]
      simp [DoneChunk.ctext, DoneChunk.entries]
  · rw [if_neg hcond, if_neg hcond]
    rw [iProject]
    dsimp only
    simp [List.append_assoc]

theorem foldl_project (m o : Nat) :
    ∀ (paras : List Text) (s : IState),
      paras.foldl (chunkStep m o) (iProject s)
        = iProject (paras.foldl (iStep m o) s) := by
  intro paras
  induction paras with
  | nil => intro s; rfl
  | cons p ps ih =>
    intro s
    rw [List.foldl_cons, List.foldl_cons, iStep_project]
    exact ih _

theorem chunk_text_eq_iChunks (t : Text) (m o : Nat) :
    chunk_text t m o = (iChunks t m o).enum.map fun p =>
      ({ text := p.2.ctext, token_count := p.2.tc, chunk_number := p.1 + 1 }
        : PChunk) := by
  rw [chunk_text, iChunks, iRun]
  by_cases hstrip : strip t = []
  · rw [if_pos hstrip, normParas_nil_of_strip_nil t hstrip]
    rfl
  · rw [if_neg hstrip]
    have hproj : iProject ⟨[], none, [], 0⟩ = (([], [], 0) : ChunkState) := rfl
    have hfold := foldl_project m o (normParas t) ⟨[], none, [], 0⟩
    rw [hproj] at hfold
    dsimp only
    rw [hfold, iProject]
    set s2 := (normParas t).foldl (iStep m o) ⟨[], none, [], 0⟩ with hs2
    dsimp only
    by_cases hcur : s2.carry.toList ++ s2.news ≠ []
    · rw [if_pos hcur, if_pos hcur]
      rw [List.enum_append]
      simp [DoneChunk.ctext, DoneChunk.entries]
    · rw [if_neg hcur, if_neg hcur]

/-! ## Invariants of the instrumented chunker run -/

theorem joinNN_entry_flatten (P : Text → Prop) :
    ∀ E : List Text, E ≠ [] →
      (∀ e ∈ E, ∃ le, le ≠ [] ∧ (∀ p ∈ le, P p) ∧ e = joinNN le) →
      ∃ l, l ≠ [] ∧ (∀ p ∈ l, P p) ∧ joinNN E = joinNN l := by
  intro E
  induction E with
  | nil => intro h; cases h rfl
  | cons e E ih =>
    intro _ h
    obtain ⟨le, hle, hlP, hej⟩ := h e (by simp)
    by_cases hE : E = []
    · subst hE
      exact ⟨le, hle, hlP, hej⟩
    · obtain ⟨lr, hlr, hlrP, hrj⟩ := ih hE fun x hx => h x (by simp [hx])
      refine ⟨le ++ lr, by simp [hle], ?_, ?_⟩
      · intro p hp
        rcases List.mem_append.mp hp with h2 | h2
        exacts [hlP p h2, hlrP p h2]
      · rw [joinNN_cons e E hE, hej, hrj, joinNN_append le lr hle hlr]

theorem iStep_newsFacts (m o : Nat) (s : IState) (para : Text) (c : List Text)
    (h1 : (s.done.map (·.news)).flatten ++ s.news = c)
    (h2 : ∀ d ∈ s.done, d.news ≠ [])
    (h3 : s.carry.isSome = true → s.news ≠ []) :
    ((iStep m o s para).done.map (·.news)).flatten ++ (iStep m o s para).news
        = c ++ [para]
    ∧ (∀ d ∈ (iStep m o s para).done, d.news ≠ [])
    ∧ ((iStep m o s para).carry.isSome = true → (iStep m o s para).news ≠ []) := by
  rw [iStep]
  try dsimp only
  by_cases hcond : s.len + count_tokens para > m ∧ s.carry.toList ++ s.news ≠ []
  · rw [if_pos hcond]
    have hnews : s.news ≠ [] := by
      cases hcr : s.carry with
      | none => rw [hcr] at hcond; simpa using hcond.2
      | some ct => exact h3 (by rw [hcr]; rfl)
    have hdone : ∀ d ∈ s.done ++ [(⟨s.carry, s.news, s.len⟩ : DoneChunk)],
        d.news ≠ [] := by
      intro d hd
      rcases List.mem_append.mp hd with h | h
      · exact h2 d h
      · rcases List.mem_singleton.mp h with rfl
        exact hnews
    have hflat : ((s.done ++ [(⟨s.carry, s.news, s.len⟩ : DoneChunk)]).map
        (·.news)).flatten ++ [para] = c ++ [para] := by
      rw [← h1]
      simp
    by_cases ho : 0 < o
    · rw [if_pos ho]
      try dsimp only
      exact ⟨hflat, hdone, fun _ => by simp⟩
    · rw [if_neg ho]
      try dsimp only
      exact ⟨hflat, hdone, fun _ => by simp⟩
  · rw [if_neg hcond]
    try dsimp only
    refine ⟨?_, h2, fun _ => by simp⟩
    rw [← h1]
    simp [List.append_assoc]

theorem iStep_carryFacts (m o : Nat) (s : IState) (para : Text)
    (h4 : s.done = [] → s.carry = none)
    (h5 : ∀ d, s.done.head? = some d → d.carry = none)
    (h6 : ∀ ct, s.carry = some ct → ∃ dl, s.done.getLast? = some dl ∧
        ct = joinNN (dl.entries.drop (dl.entries.length - o)) ∧ 0 < o)
    (h7 : s.done.Chain' fun d d2 => ∀ ct, d2.carry = some ct →
        ct = joinNN (d.entries.drop (d.entries.length - o)) ∧ 0 < o) :
    ((iStep m o s para).done = [] → (iStep m o s para).carry = none)
    ∧ (∀ d, (iStep m o s para).done.head? = some d → d.carry = none)
    ∧ (∀ ct, (iStep m o s para).carry = some ct →
        ∃ dl, (iStep m o s para).done.getLast? = some dl ∧
          ct = joinNN (dl.entries.drop (dl.entries.length - o)) ∧ 0 < o)
    ∧ ((iStep m o s para).done.Chain' fun d d2 => ∀ ct, d2.carry = some ct →
        ct = joinNN (d.entries.drop (d.entries.length - o)) ∧ 0 < o) := by
  rw [iStep]
  try dsimp only
  by_cases hcond : s.len + count_tokens para > m ∧ s.carry.toList ++ s.news ≠ []
  · rw [if_pos hcond]
    have hh4 : s.done ++ [(⟨s.carry, s.news, s.len⟩ : DoneChunk)] = [] →
        False := by simp
    have hh5 : ∀ d, (s.done ++ [(⟨s.carry, s.news, s.len⟩ : DoneChunk)]).head?
        = some d → d.carry = none := by
      intro d hd
      cases hdone : s.done with
      | nil =>
        rw [hdone] at hd
        simp at hd
        subst hd
        exact h4 hdone
      | cons a l =>
        rw [hdone] at hd
        simp at hd
        subst hd
        exact h5 a (by rw [hdone]; rfl)
    have hh7 : (s.done ++ [(⟨s.carry, s.news, s.len⟩ : DoneChunk)]).Chain'
        fun d d2 => ∀ ct, d2.carry = some ct →
          ct = joinNN (d.entries.drop (d.entries.length - o)) ∧ 0 < o := by
      rw [List.chain'_append]
      refine ⟨h7, List.chain'_singleton _, ?_⟩
      intro x hx y hy ct hct
      rcases List.mem_singleton.mp (by simpa using hy) with rfl
      obtain ⟨dl, hdl, hform⟩ := h6 ct hct
      have hx2 : x = dl := by
        rw [Option.mem_def] at hx
        rw [hx] at hdl
        exact Option.some_inj.mp hdl
      rw [hx2]
      exact hform
    by_cases ho : 0 < o
    · rw [if_pos ho]
      try dsimp only
      refine ⟨fun h => absurd h (by simp), hh5, ?_, hh7⟩
      intro ct hct
      rcases Option.some_inj.mp hct with rfl
      refine ⟨⟨s.carry, s.news, s.len⟩, ?_, rfl, ho⟩
      rw [List.getLast?_concat]
    · rw [if_neg ho]
      try dsimp only
      exact ⟨fun h => absurd h (by simp), hh5, fun ct hct => Option.noConfusion hct, hh7⟩
  · rw [if_neg hcond]
    try dsimp only
    exact ⟨h4, h5, h6, h7⟩

theorem iStep_memberFacts (m o : Nat) (P : Text → Prop) (s : IState)
    (para : Text) (hpara : P para)
    (h8a : ∀ p ∈ s.news, P p)
    (h8b : ∀ d ∈ s.done, ∀ p ∈ d.news, P p)
    (h8c : ∀ ct, s.carry = some ct →
        ∃ lc, lc ≠ [] ∧ (∀ p ∈ lc, P p) ∧ ct = joinNN lc)
    (h8d : ∀ d ∈ s.done, ∀ ct, d.carry = some ct →
        ∃ lc, lc ≠ [] ∧ (∀ p ∈ lc, P p) ∧ ct = joinNN lc) :
    (∀ p ∈ (iStep m o s para).news, P p)
    ∧ (∀ d ∈ (iStep m o s para).done, ∀ p ∈ d.news, P p)
    ∧ (∀ ct, (iStep m o s para).carry = some ct →
        ∃ lc, lc ≠ [] ∧ (∀ p ∈ lc, P p) ∧ ct = joinNN lc)
    ∧ (∀ d ∈ (iStep m o s para).done, ∀ ct, d.carry = some ct →
        ∃ lc, lc ≠ [] ∧ (∀ p ∈ lc, P p) ∧ ct = joinNN lc) := by
  rw [iStep]
  try dsimp only
  by_cases hcond : s.len + count_tokens para > m ∧ s.carry.toList ++ s.news ≠ []
  · rw [if_pos hcond]
    have hb : ∀ d ∈ s.done ++ [(⟨s.carry, s.news, s.len⟩ : DoneChunk)],
        ∀ p ∈ d.news, P p := by
      intro d hd
      rcases List.mem_append.mp hd with h | h
      · exact h8b d h
      · rcases List.mem_singleton.mp h with rfl
        exact h8a
    have hd : ∀ d ∈ s.done ++ [(⟨s.carry, s.news, s.len⟩ : DoneChunk)],
        ∀ ct, d.carry = some ct →
          ∃ lc, lc ≠ [] ∧ (∀ p ∈ lc, P p) ∧ ct = joinNN lc := by
      intro d hd2
      rcases List.mem_append.mp hd2 with h | h
      · exact h8d d h
      · rcases List.mem_singleton.mp h with rfl
        exact h8c
    by_cases ho : 0 < o
    · rw [if_pos ho]
      try dsimp only
      refine ⟨by simpa using hpara, hb, ?_, hd⟩
      intro ct hct
      rcases Option.some_inj.mp hct with rfl
      have hcur := hcond.2
      have hdropne : (s.carry.toList ++ s.news).drop
          ((s.carry.toList ++ s.news).length - o) ≠ [] := by
        rw [← List.length_pos_iff_ne_nil] at hcur ⊢
        rw [List.length_drop]
        omega
      refine joinNN_entry_flatten P _ hdropne ?_
      intro e he
      have hmem : e ∈ s.carry.toList ++ s.news := List.mem_of_mem_drop he
      rcases List.mem_append.mp hmem with h | h
      · cases hcr : s.carry with
        | none => rw [hcr] at h; cases h
        | some ct2 =>
          rw [hcr] at h
          rcases List.mem_singleton.mp (by simpa using h) with rfl
          exact h8c e (by rw [hcr])
      · exact ⟨[e], by simp, by simpa using h8a e h, rfl⟩
    · rw [if_neg ho]
      try dsimp only
      exact ⟨by simpa using hpara, hb, fun ct hct => Option.noConfusion hct, hd⟩
  · rw [if_neg hcond]
    try dsimp only
    refine ⟨?_, h8b, h8c, h8d⟩
    intro p hp
    rcases List.mem_append.mp hp with h | h
    · exact h8a p h
    · rcases List.mem_singleton.mp h with rfl
      exact hpara

theorem iRun_newsFacts (m o : Nat) :
    ∀ (paras : List Text) (s : IState) (c : List Text),
      (s.done.map (·.news)).flatten ++ s.news = c →
      (∀ d ∈ s.done, d.news ≠ []) →
      (s.carry.isSome = true → s.news ≠ []) →
      ((((paras.foldl (iStep m o) s).done.map (·.news)).flatten
          ++ (paras.foldl (iStep m o) s).news = c ++ paras)
        ∧ (∀ d ∈ (paras.foldl (iStep m o) s).done, d.news ≠ [])
        ∧ ((paras.foldl (iStep m o) s).carry.isSome = true →
            (paras.foldl (iStep m o) s).news ≠ [])) := by
  intro paras
  induction paras with
  | nil =>
    intro s c h1 h2 h3
    simpa using ⟨h1, h2, h3⟩
  | cons p ps ih =>
    intro s c h1 h2 h3
    rw [List.foldl_cons]
    obtain ⟨g1, g2, g3⟩ := iStep_newsFacts m o s p c h1 h2 h3
    have hres := ih (iStep m o s p) (c ++ [p]) g1 g2 g3
    simpa [List.append_assoc] using hres

theorem iRun_carryFacts (m o : Nat) :
    ∀ (paras : List Text) (s : IState),
      (s.done = [] → s.carry = none) →
      (∀ d, s.done.head? = some d → d.carry = none) →
      (∀ ct, s.carry = some ct → ∃ dl, s.done.getLast? = some dl ∧
          ct = joinNN (dl.entries.drop (dl.entries.length - o)) ∧ 0 < o) →
      (s.done.Chain' fun d d2 => ∀ ct, d2.carry = some ct →
          ct = joinNN (d.entries.drop (d.entries.length - o)) ∧ 0 < o) →
      ((((paras.foldl (iStep m o) s).done = [] →
            (paras.foldl (iStep m o) s).carry = none)
        ∧ (∀ d, (paras.foldl (iStep m o) s).done.head? = some d →
            d.carry = none)
        ∧ (∀ ct, (paras.foldl (iStep m o) s).carry = some ct →
            ∃ dl, (paras.foldl (iStep m o) s).done.getLast? = some dl ∧
              ct = joinNN (dl.entries.drop (dl.entries.length - o)) ∧ 0 < o)
        ∧ ((paras.foldl (iStep m o) s).done.Chain' fun d d2 =>
            ∀ ct, d2.carry = some ct →
              ct = joinNN (d.entries.drop (d.entries.length - o)) ∧ 0 < o))) := by
  intro paras
  induction paras with
  | nil =>
    intro s h4 h5 h6 h7
    exact ⟨h4, h5, h6, h7⟩
  | cons p ps ih =>
    intro s h4 h5 h6 h7
    rw [List.foldl_cons]
    obtain ⟨g4, g5, g6, g7⟩ := iStep_carryFacts m o s p h4 h5 h6 h7
    exact ih (iStep m o s p) g4 g5 g6 g7

theorem iRun_memberFacts (m o : Nat) (P : Text → Prop) :
    ∀ (paras : List Text), (∀ p ∈ paras, P p) →
    ∀ (s : IState),
      (∀ p ∈ s.news, P p) →
      (∀ d ∈ s.done, ∀ p ∈ d.news, P p) →
      (∀ ct, s.carry = some ct →
          ∃ lc, lc ≠ [] ∧ (∀ p ∈ lc, P p) ∧ ct = joinNN lc) →
      (∀ d ∈ s.done, ∀ ct, d.carry = some ct →
          ∃ lc, lc ≠ [] ∧ (∀ p ∈ lc, P p) ∧ ct = joinNN lc) →
      ((∀ p ∈ (paras.foldl (iStep m o) s).news, P p)
        ∧ (∀ d ∈ (paras.foldl (iStep m o) s).done, ∀ p ∈ d.news, P p)
        ∧ (∀ ct, (paras.foldl (iStep m o) s).carry = some ct →
            ∃ lc, lc ≠ [] ∧ (∀ p ∈ lc, P p) ∧ ct = joinNN lc)
        ∧ (∀ d ∈ (paras.foldl (iStep m o) s).done, ∀ ct, d.carry = some ct →
            ∃ lc, lc ≠ [] ∧ (∀ p ∈ lc, P p) ∧ ct = joinNN lc)) := by
  intro paras
  induction paras with
  | nil =>
    intro _ s h8a h8b h8c h8d
    exact ⟨h8a, h8b, h8c, h8d⟩
  | cons p ps ih =>
    intro hps s h8a h8b h8c h8d
    rw [List.foldl_cons]
    obtain ⟨g8a, g8b, g8c, g8d⟩ := iStep_memberFacts m o P s p
      (hps p (by simp)) h8a h8b h8c h8d
    exact ih (fun q hq => hps q (by simp [hq])) (iStep m o s p) g8a g8b g8c g8d

theorem iChunks_facts (t : Text) (m o : Nat) :
    ((iChunks t m o).map (·.news)).flatten = normParas t
  ∧ (∀ d ∈ iChunks t m o, d.news ≠ [])
  ∧ (∀ d, (iChunks t m o).head? = some d → d.carry = none)
  ∧ ((iChunks t m o).Chain' fun d d2 => ∀ ct, d2.carry = some ct →
      ct = joinNN (d.entries.drop (d.entries.length - o)) ∧ 0 < o)
  ∧ (∀ d ∈ iChunks t m o, ∀ ct, d.carry = some ct →
      ∃ lc, lc ≠ [] ∧ (∀ p ∈ lc, p ∈ normParas t) ∧ ct = joinNN lc)
  ∧ (∀ d ∈ iChunks t m o, ∀ p ∈ d.news, p ∈ normParas t) := by
  have hA := iRun_newsFacts m o (normParas t) ⟨[], none, [], 0⟩ []
    rfl (fun d hd => absurd hd (by simp)) (fun h => by cases h)
  have hB := iRun_carryFacts m o (normParas t) ⟨[], none, [], 0⟩
    (fun _ => rfl) (fun d hd => by cases hd)
    (fun ct hct => Option.noConfusion hct) List.chain'_nil
  have hC := iRun_memberFacts m o (fun p => p ∈ normParas t) (normParas t)
    (fun p hp => hp) ⟨[], none, [], 0⟩
    (fun p hp => absurd hp (by simp)) (fun d hd => absurd hd (by simp))
    (fun ct hct => Option.noConfusion hct) (fun d hd => absurd hd (by simp))
  obtain ⟨a1, a2, a3⟩ := hA
  obtain ⟨b4, b5, b6, b7⟩ := hB
  obtain ⟨c8a, c8b, c8c, c8d⟩ := hC
  rw [List.nil_append] at a1
  rw [iChunks]
  try dsimp only
  rw [← iRun] at a1 a2 a3 b4 b5 b6 b7 c8a c8b c8c c8d
  set sF := iRun t m o with hsF
  by_cases hcur : sF.carry.toList ++ sF.news ≠ []
  · rw [if_pos hcur]
    have hd1news : sF.news ≠ [] := by
      cases hcr : sF.carry with
      | none => rw [hcr] at hcur; simpa using hcur
      | some ct => exact a3 (by rw [hcr]; rfl)
    refine ⟨?_, ?_, ?_, ?_, ?_, ?_⟩
    · rw [← a1]
      simp
    · intro d hd
      rcases List.mem_append.mp hd with h | h
      · exact a2 d h
      · rcases List.mem_singleton.mp h with rfl
        exact hd1news
    · intro d hd
      cases hdone : sF.done with
      | nil =>
        rw [hdone] at hd
        simp at hd
        subst hd
        exact b4 hdone
      | cons a l =>
        rw [hdone] at hd
        simp at hd
        subst hd
        exact b5 _ (by rw [hdone]; rfl)
    · rw [List.chain'_append]
      refine ⟨b7, List.chain'_singleton _, ?_⟩
      intro x hx y hy ct hct
      rcases List.mem_singleton.mp (by simpa using hy) with rfl
      obtain ⟨dl, hdl, hform⟩ := b6 ct hct
      have hx2 : x = dl := by
        rw [Option.mem_def] at hx
        rw [hx] at hdl
        exact Option.some_inj.mp hdl
      rw [hx2]
      exact hform
    · intro d hd
      rcases List.mem_append.mp hd with h | h
      · exact c8d d h
      · rcases List.mem_singleton.mp h with rfl
        exact c8c
    · intro d hd
      rcases List.mem_append.mp hd with h | h
      · exact c8b d h
      · rcases List.mem_singleton.mp h with rfl
        exact c8a
  · rw [if_neg hcur]
    push_neg at hcur
    have hnews : sF.news = [] := (List.append_eq_nil.mp hcur).2
    refine ⟨?_, a2, b5, b7, c8d, c8b⟩
    rw [← a1, hnews]
    simp

theorem dropCarried_ctext (d : DoneChunk) (h : d.news ≠ []) (tc num : Nat) :
    dropCarried d.carry
      { text := d.ctext, token_count := tc, chunk_number := num }
      = joinNN d.news := by
  cases hc : d.carry with
  | none =>
    rw [dropCarried]
    dsimp only
    rw [DoneChunk.ctext, DoneChunk.entries, hc]
    rfl
  | some str =>
    rw [dropCarried]
    dsimp only
    rw [DoneChunk.ctext, DoneChunk.entries, hc]
    have hcons : joinNN (Option.toList (some str) ++ d.news)
        = (str ++ nnSep) ++ joinNN d.news := by
      rw [show Option.toList (some str) ++ d.news = str :: d.news from rfl,
        joinNN_cons str d.news h, List.append_assoc]
    rw [hcons]
    rw [show str.length + 2 = (str ++ nnSep).length by
      rw [List.length_append]; rfl]
    exact List.drop_left _ _

theorem zipWith_dropCarried :
    ∀ (L : List DoneChunk) (k : Nat), (∀ d ∈ L, d.news ≠ []) →
      List.zipWith dropCarried (L.map (·.carry))
        ((List.enumFrom k L).map fun p =>
          ({ text := p.2.ctext, token_count := p.2.tc, chunk_number := p.1 + 1 }
            : PChunk))
      = L.map fun d => joinNN d.news := by
  intro L
  induction L with
  | nil => intro k _; rfl
  | cons d L ih =>
    intro k h
    rw [List.map_cons, List.enumFrom_cons, List.map_cons,
      List.zipWith_cons_cons, dropCarried_ctext d (h d (by simp)),
      ih (k + 1) fun x hx => h x (by simp [hx]), List.map_cons]

theorem zip_chain_suffix (o : Nat) :
    ∀ (L : List DoneChunk) (k : Nat),
      (L.Chain' fun d d2 => ∀ ct, d2.carry = some ct →
        ct = joinNN (d.entries.drop (d.entries.length - o)) ∧ 0 < o) →
      List.Chain' (fun a b => ∀ s2, b.1 = some s2 → s2 <:+ a.2.text)
        ((L.map (·.carry)).zip ((List.enumFrom k L).map fun p =>
          ({ text := p.2.ctext, token_count := p.2.tc, chunk_number := p.1 + 1 }
            : PChunk))) := by
  intro L
  induction L with
  | nil => intro k _; exact List.chain'_nil
  | cons d L ih =>
    intro k hch
    cases L with
    | nil => exact List.chain'_singleton _
    | cons d2 L2 =>
      simp only [List.map_cons, List.enumFrom_cons, List.zip_cons_cons]
      rw [List.chain'_cons]
      constructor
      · intro s2 hs2
        obtain ⟨hform, _⟩ := (List.chain'_cons.mp hch).1 s2 hs2
        rw [hform]
        exact joinNN_drop_suffix d.entries _
      · have hrec := ih (k + 1) (List.chain'_cons.mp hch).2
        simpa only [List.map_cons, List.enumFrom_cons, List.zip_cons_cons]
          using hrec

theorem zip_carried_prefix :
    ∀ (L : List DoneChunk) (k : Nat), (∀ d ∈ L, d.news ≠ []) →
      List.Forall₂ (fun oc (c : PChunk) => ∀ s2, oc = some s2 →
          (s2 ++ nnSep) <+: c.text)
        (L.map (·.carry))
        ((List.enumFrom k L).map fun p =>
          ({ text := p.2.ctext, token_count := p.2.tc, chunk_number := p.1 + 1 }
            : PChunk)) := by
  intro L
  induction L with
  | nil => intro k _; exact List.Forall₂.nil
  | cons d L ih =>
    intro k h
    rw [List.map_cons, List.enumFrom_cons, List.map_cons]
    refine List.Forall₂.cons ?_ (ih (k + 1) fun x hx => h x (by simp [hx]))
    intro s2 hs2
    refine ⟨joinNN d.news, ?_⟩
    rw [DoneChunk.ctext, DoneChunk.entries, hs2,
      show Option.toList (some s2) ++ d.news = s2 :: d.news from rfl,
      joinNN_cons s2 d.news (h d (by simp)), List.append_assoc]

/-! ## C2: de-overlapped chunks reconstruct the normalized input -/

/-- C2: for `0 ≤ overlap < max_tokens`, the paragraph chunker's output
reconstructs its input: the carried-over overlap of each chunk (`none`
for the first chunk) is a prefix of that chunk's text (followed by the
paragraph separator) and trailing content of the previous chunk's text,
and joining the chunks in emission order after removing each carried
prefix yields exactly the whitespace-normalized input
(`"\n\n".join` of the stripped non-empty paragraphs of `T`). -/
theorem chunk_text_reconstructs_input (t : Text) (m o : Nat) (_ho : o < m) :
    (carriedOpts t m o).length = (chunk_text t m o).length
  ∧ (∀ x ∈ (carriedOpts t m o).head?, x = none)
  ∧ List.Forall₂ (fun oc (c : PChunk) => ∀ s2, oc = some s2 →
      (s2 ++ nnSep) <+: c.text) (carriedOpts t m o) (chunk_text t m o)
  ∧ List.Chain' (fun a b => ∀ s2, b.1 = some s2 → s2 <:+ a.2.text)
      ((carriedOpts t m o).zip (chunk_text t m o))
  ∧ joinNN (List.zipWith dropCarried (carriedOpts t m o) (chunk_text t m o))
      = joinNN (normParas t) := by
  obtain ⟨f1, f2, f3, f4, f5, f6⟩ := iChunks_facts t m o
  rw [carriedOpts, chunk_text_eq_iChunks]
  rw [show (iChunks t m o).enum = List.enumFrom 0 (iChunks t m o) from rfl]
  refine ⟨?_, ?_, ?_, ?_, ?_⟩
  · rw [List.length_map, List.length_map, List.enumFrom_length]
  · intro x hx
    cases hL : iChunks t m o with
    | nil => rw [hL] at hx; cases hx
    | cons d L2 =>
      rw [hL] at hx
      simp at hx
      subst hx
      exact f3 d (by rw [hL]; rfl)
  · exact zip_carried_prefix _ 0 f2
  · exact zip_chain_suffix o _ 0 f4
  · rw [zipWith_dropCarried _ 0 f2]
    have hmm : (iChunks t m o).map (fun d => joinNN d.news)
        = ((iChunks t m o).map (·.news)).map joinNN := by
      rw [List.map_map]
      rfl
    rw [hmm, joinNN_flatten _ (fun l hl => by
      obtain ⟨d, hd, rfl⟩ := List.mem_map.mp hl
      exact f2 d hd), f1]

/-- Witness for C2 at a concrete text and parameters. -/
theorem chunk_text_reconstructs_input_witness :
    (1 : Nat) < 2
  ∧ joinNN (List.zipWith dropCarried
      (carriedOpts ['a', 'b', '\n', '\n', 'c', 'd'] 2 1)
      (chunk_text ['a', 'b', '\n', '\n', 'c', 'd'] 2 1))
    = joinNN (normParas ['a', 'b', '\n', '\n', 'c', 'd']) :=
  ⟨by decide,
    (chunk_text_reconstructs_input ['a', 'b', '\n', '\n', 'c', 'd'] 2 1
      (by decide)).2.2.2.2⟩

/-! ## C8: chunker edge cases -/

/-- C8: empty or whitespace-only text produces zero chunks;
whitespace-only paragraphs are dropped (every chunk is a separator-join
of kept — stripped, non-empty — paragraphs only); every kept paragraph
appears whole inside one chunk (never split mid-paragraph); and a text
whose single paragraph exceeds `max_tokens` is still emitted as that
one whole (oversized) chunk. -/
theorem chunker_edge_cases (t : Text) (m o : Nat) :
    (strip t = [] → chunk_text t m o = [])
  ∧ (∀ c ∈ chunk_text t m o, ∃ l, l ≠ [] ∧ (∀ p ∈ l, p ∈ normParas t) ∧
      c.text = joinNN l)
  ∧ (∀ p ∈ normParas t, ∃ c ∈ chunk_text t m o, ∃ pre post,
      c.text = joinNN (pre ++ p :: post))
  ∧ (∀ p, normParas t = [p] → count_tokens p > m →
      chunk_text t m o = [(⟨p, count_tokens p, 1, none⟩ : PChunk)]) := by
  obtain ⟨f1, f2, f3, f4, f5, f6⟩ := iChunks_facts t m o
  refine ⟨?_, ?_, ?_, ?_⟩
  · intro h
    rw [chunk_text, if_pos h]
  · intro c hc
    rw [chunk_text_eq_iChunks] at hc
    obtain ⟨pair, hpair, rfl⟩ := List.mem_map.mp hc
    have hd : pair.2 ∈ iChunks t m o := by
      have := List.mem_map_of_mem Prod.snd hpair
      rwa [List.enum_map_snd] at this
    have hentries : pair.2.entries ≠ [] := by
      rw [DoneChunk.entries]
      intro hnil
      exact f2 pair.2 hd (List.append_eq_nil.mp hnil).2
    refine joinNN_entry_flatten (fun p => p ∈ normParas t) pair.2.entries
      hentries ?_
    intro e he
    rw [DoneChunk.entries] at he
    rcases List.mem_append.mp he with h | h
    · cases hcr : pair.2.carry with
      | none => rw [hcr] at h; cases h
      | some ct =>
        rw [hcr] at h
        rcases List.mem_singleton.mp (by simpa using h) with rfl
        exact f5 pair.2 hd e hcr
    · exact ⟨[e], by simp, by simpa using f6 pair.2 hd e h, rfl⟩
  · intro p hp
    rw [← f1] at hp
    obtain ⟨lnews, hlnews, hpl⟩ := List.mem_flatten.mp hp
    obtain ⟨d, hd, rfl⟩ := List.mem_map.mp hlnews
    have hd2 : d ∈ (iChunks t m o).enum.map Prod.snd := by
      rw [List.enum_map_snd]
      exact hd
    obtain ⟨pair, hpair, hsnd⟩ := List.mem_map.mp hd2
    refine ⟨⟨pair.2.ctext, pair.2.tc, pair.1 + 1, none⟩, ?_, ?_⟩
    · rw [chunk_text_eq_iChunks]
      exact List.mem_map_of_mem _ hpair
    · obtain ⟨pre2, post, hsplit⟩ := List.append_of_mem hpl
      refine ⟨pair.2.carry.toList ++ pre2, post, ?_⟩
      rw [DoneChunk.ctext, DoneChunk.entries, hsnd, hsplit,
        List.append_assoc]
  · intro p hp _
    have hne : strip t ≠ [] := by
      intro h
      rw [normParas_nil_of_strip_nil t h] at hp
      cases hp
    rw [chunk_text, if_neg hne]
    dsimp only
    rw [hp]
    rw [List.foldl_cons, List.foldl_nil, chunkStep]
    simp [joinNN]

/-- Witness for C8: whitespace-only input produces no chunks, and a
single oversized paragraph is emitted whole. -/
theorem chunker_edge_cases_witness :
    chunk_text [' ', ' '] 800 100 = []
  ∧ chunk_text ['a', 'a', 'a', 'a', 'a', 'a', 'a', 'a'] 1 0
      = [(⟨['a', 'a', 'a', 'a', 'a', 'a', 'a', 'a'], 2, 1, none⟩ : PChunk)] :=
  ⟨(chunker_edge_cases [' ', ' '] 800 100).1 (by decide),
    (chunker_edge_cases ['a', 'a', 'a', 'a', 'a', 'a', 'a', 'a'] 1 0).2.2.2
      ['a', 'a', 'a', 'a', 'a', 'a', 'a', 'a'] (by decide) (by decide)⟩

/-! ## C10: termination of the character-window chunkers -/

theorem pdfChunkLoop_isSome (size overlap : Nat) (h : overlap < size)
    (text : Text) :
    ∀ fuel start acc, text.length - start < fuel →
      (pdfChunkLoop size overlap text fuel start acc).isSome = true := by
  intro fuel
  induction fuel with
  | zero => intro start acc hlt; omega
  | succ fuel ih =>
    intro start acc hlt
    simp only [pdfChunkLoop]
    split
    case isTrue hstart =>
      split
      case isTrue he => simp
      case isFalse he =>
        apply ih
        omega
    case isFalse hstart => simp

theorem pdfChunkLoop_none (size overlap : Nat) (text : Text)
    (h1 : size ≤ overlap) (h2 : size < text.length) :
    ∀ fuel acc, pdfChunkLoop size overlap text fuel 0 acc = none := by
  intro fuel
  induction fuel with
  | zero => intro acc; rfl
  | succ fuel ih =>
    intro acc
    simp only [pdfChunkLoop]
    rw [if_pos (by omega : 0 < text.length)]
    rw [if_neg (by omega : ¬ min (0 + size) text.length = text.length)]
    have hz : min (0 + size) text.length - overlap = 0 := by omega
    rw [hz]
    exact ih _

theorem pageChunkLoop_isSome (size overlap : Nat) (h : overlap < size)
    (page_text : Text) (page_idx : Nat) :
    ∀ fuel start acc, page_text.length - start < fuel →
      (pageChunkLoop size overlap page_text page_idx fuel start acc).isSome = true := by
  intro fuel
  induction fuel with
  | zero => intro start acc hlt; omega
  | succ fuel ih =>
    intro start acc hlt
    simp only [pageChunkLoop]
    split
    case isTrue hstart =>
      split
      case isTrue he => simp
      case isFalse he =>
        apply ih
        omega
    case isFalse hstart => simp

theorem pageChunkLoop_none (size overlap : Nat) (page_text : Text)
    (page_idx : Nat) (h1 : size ≤ overlap) (h2 : size < page_text.length) :
    ∀ fuel acc, pageChunkLoop size overlap page_text page_idx fuel 0 acc = none := by
  intro fuel
  induction fuel with
  | zero => intro acc; rfl
  | succ fuel ih =>
    intro acc
    simp only [pageChunkLoop]
    rw [if_pos (by omega : 0 < page_text.length)]
    rw [if_neg (by omega : ¬ min (0 + size) page_text.length = page_text.length)]
    have hz : min (0 + size) page_text.length - overlap = 0 := by omega
    rw [hz]
    exact ih _

theorem extract_foldl_isSome (size overlap : Nat) (h : overlap < size) :
    ∀ (l : List (Nat × Text)) (acc : List PageChunk),
      ((l.foldl
        (fun acc (p : Nat × Text) =>
          match acc with
          | none => none
          | some res =>
            pageChunkLoop size overlap p.2 p.1 (p.2.length + 1) 0 res)
        (some acc))).isSome = true := by
  intro l
  induction l with
  | nil => intro acc; rfl
  | cons p l ih =>
    intro acc
    rw [List.foldl_cons]
    have hs : (pageChunkLoop size overlap p.2 p.1 (p.2.length + 1) 0 acc).isSome = true :=
      pageChunkLoop_isSome size overlap h p.2 p.1 _ 0 acc (by omega)
    obtain ⟨res, hres⟩ := Option.isSome_iff_exists.mp hs
    simpa [hres] using ih res

/-- C10: the fixed-size character-window chunkers of `pdf_parser.py`
terminate on every input when `overlap < chunk_size` (each loop
iteration advances the window start by at least `chunk_size - overlap`,
so `length + 1` iterations of fuel always suffice); and the
precondition is necessary: as soon as `chunk_size ≤ overlap` and the
text is longer than `chunk_size`, the loop never terminates (returns
`none` for every amount of fuel). -/
theorem window_chunkers_terminate_iff_overlap_lt_size :
    (∀ (text : Text) (size overlap : Nat), overlap < size →
        (pdf_chunk_text text size overlap).isSome = true)
  ∧ (∀ (pages : List Text) (size overlap : Nat), overlap < size →
        (extract_text_chunks pages size overlap).isSome = true)
  ∧ (∀ (text : Text) (size overlap : Nat), size ≤ overlap →
        size < text.length → pdf_chunk_text text size overlap = none)
  ∧ (∀ (page_text : Text) (page_idx size overlap fuel : Nat)
        (acc : List PageChunk), size ≤ overlap → size < page_text.length →
        pageChunkLoop size overlap page_text page_idx fuel 0 acc = none) := by
  refine ⟨?_, ?_, ?_, ?_⟩
  · intro text size overlap h
    rw [pdf_chunk_text]
    split
    · rfl
    · exact pdfChunkLoop_isSome size overlap h text _ 0 [] (by omega)
  · intro pages size overlap h
    rw [extract_text_chunks]
    exact extract_foldl_isSome size overlap h _ []
  · intro text size overlap h1 h2
    rw [pdf_chunk_text]
    rw [if_neg (by intro hnil; rw [hnil] at h2; simp at h2)]
    exact pdfChunkLoop_none size overlap text h1 h2 _ []
  · intro page_text page_idx size overlap fuel acc h1 h2
    exact pageChunkLoop_none size overlap page_text page_idx h1 h2 fuel acc

/-- Witness for C10 at concrete inputs. -/
theorem window_chunkers_terminate_iff_overlap_lt_size_witness :
    (pdf_chunk_text ['a', 'b', 'c'] 2 1).isSome = true
  ∧ pdf_chunk_text ['a', 'b', 'c'] 2 2 = none := by
  constructor
  · exact window_chunkers_terminate_iff_overlap_lt_size.1 ['a', 'b', 'c'] 2 1
      (by decide)
  · exact window_chunkers_terminate_iff_overlap_lt_size.2.2.1 ['a', 'b', 'c'] 2 2
      (by decide) (by decide)

/-! ## C1: short embedding batches are silently padded, not rejected -/

/-- C1 (code bug): when the provider returns fewer vectors than input
texts, `processing.generate_embeddings` returns successfully, silently
setting the unmatched chunk's embedding to `None`, and
`chat.get_embeddings` returns the short vector list (1 vector for 2
texts) — neither raises, contradicting the required
`EmbeddingProviderError` (no such error type exists in the source). -/
theorem short_embedding_batch_is_silently_padded :
    generate_embeddings
        [{ text := ['a'], token_count := 0, chunk_number := 1 },
         { text := ['b'], token_count := 0, chunk_number := 2 }]
        (.ok (some [[1]]))
      = .ok
        [{ text := ['a'], token_count := 0, chunk_number := 1, embedding := some [1] },
         { text := ['b'], token_count := 0, chunk_number := 2, embedding := none }]
  ∧ (get_embeddings
        { getDocument := .ok none, getChunks := .ok [],
          embedContent := fun _ _ => .ok [[1]],
          generate := fun _ => .ok "" }
        ["a", "b"] 3).1 = .ok [[1]] := by
  constructor
  · rfl
  · rfl

/-! ## C6: non-completed documents fast-fail with no provider calls -/

/-- C6: for a document whose status is not `completed`,
`chat.generate_response` returns the "not ready" message with empty
sources and an empty provider-call trace (zero embedding and zero
generation calls), and the result is the same whatever the providers
would have answered. -/
theorem not_completed_fast_fails (env : ChatEnv) (d : Document) (msg : String)
    (hdoc : env.getDocument = .ok (some d)) (hst : d.status ≠ .completed) :
    generate_response env msg = ({ message := notReadyMsg, sources := [] }, [])
  ∧ ∀ env' : ChatEnv, env'.getDocument = .ok (some d) →
      generate_response env' msg = generate_response env msg := by
  have main : ∀ env₂ : ChatEnv, env₂.getDocument = .ok (some d) →
      generate_response env₂ msg = ({ message := notReadyMsg, sources := [] }, []) := by
    intro env₂ h₂
    rw [generate_response, h₂]
    simp [hst]
  exact ⟨main env hdoc, fun env' h' => (main env' h').trans (main env hdoc).symm⟩

/-- Witness for C6 at a concrete pending document and inert providers. -/
theorem not_completed_fast_fails_witness :
    generate_response
        { getDocument := .ok (some { status := .pending }), getChunks := .ok [],
          embedContent := fun _ _ => .error "down",
          generate := fun _ => .error "down" }
        "what color is the sky?"
      = ({ message := notReadyMsg, sources := [] }, []) :=
  (not_completed_fast_fails _ { status := .pending } _ rfl (by decide)).1

/-! ## Lemmas about chunk scoring and the search pipeline -/

theorem normSq_nonneg (l : List ℚ) : 0 ≤ normSq l := by
  refine List.sum_nonneg ?_
  intro x hx
  obtain ⟨y, _, rfl⟩ := List.mem_map.mp hx
  exact mul_self_nonneg y

theorem scoreChunk_eq_none_of_degenerate (query : List ℚ) (threshold : ℚ)
    (c : Chunk)
    (h : c.embedding = none ∨ c.embedding = some [] ∨
      (∃ e, c.embedding = some e ∧ normSq e = 0) ∨
      (∃ e, c.embedding = some e ∧ e.length ≠ query.length)) :
    scoreChunk query threshold c = none := by
  rcases h with h | h | ⟨e, he, hz⟩ | ⟨e, he, hl⟩
  · simp [scoreChunk, h]
  · simp [scoreChunk, h]
  · rw [scoreChunk, he]
    dsimp only
    split_ifs with h1 h2 h3 <;> try rfl
    exact absurd (Or.inr hz) h2
  · rw [scoreChunk, he]
    dsimp only
    split_ifs with h1 h2 <;> try rfl

theorem scoreChunk_some (query : List ℚ) (threshold : ℚ) (c : Chunk)
    (r : SearchResult) (h : scoreChunk query threshold c = some r) :
    (threshold : ℝ) ≤ r.similarity ∧ r.chunk_number = c.chunk_number ∧
      ∃ e, c.embedding = some e ∧ r.similarity = cosSim query e ∧
        normSq query ≠ 0 ∧ normSq e ≠ 0 := by
  rw [scoreChunk] at h
  cases hemb : c.embedding with
  | none => rw [hemb] at h; cases h
  | some e =>
    rw [hemb] at h
    dsimp only at h
    split_ifs at h with h1 h2 h3 h4
    · cases h
      push_neg at h2
      exact ⟨h4, rfl, e, rfl, rfl, h2.1, h2.2⟩

theorem search_chunks_pipeline (d : Document) (chunks : List Chunk)
    (query : List ℚ) (limit : Nat) (threshold : ℚ)
    (hst : d.status = .completed) (hne : chunks ≠ []) :
    search_chunks (.ok (some d)) (.ok chunks) query limit threshold =
      (sortBySimilarity (chunks.filterMap (scoreChunk query threshold))).take limit := by
  rw [search_chunks.eq_def]
  simp [hst, hne]

theorem search_chunks_trivial_nil (docRes : Except String (Option Document))
    (chunksRes : Except String (List Chunk)) (query : List ℚ) (limit : Nat)
    (threshold : ℚ)
    (h : ∀ d chunks, docRes = .ok (some d) → chunksRes = .ok chunks →
      d.status = .completed → chunks = [] ∨
        chunks.filterMap (scoreChunk query threshold) = []) :
    search_chunks docRes chunksRes query limit threshold = [] := by
  rw [search_chunks.eq_def]
  cases docRes with
  | error e => rfl
  | ok od =>
    cases od with
    | none => rfl
    | some d =>
      dsimp only
      by_cases hst : d.status = .completed
      · rw [if_neg (by simp [hst])]
        cases chunksRes with
        | error e => rfl
        | ok chunks =>
          dsimp only
          rcases h d chunks rfl rfl hst with hnil | hfm
          · simp [hnil]
          · by_cases hch : chunks = []
            · simp [hch]
            · rw [if_neg hch, hfm]
              simp [sortBySimilarity]
      · simp [hst]

/-! ## C4: empty search outcomes are empty lists, not errors -/

/-- C4: `search_chunks` (which catches every internal exception and is
total here by construction) returns `[]` — rather than raising — when
the document has no chunks, when no chunk has an embedding, and when no
embedded chunk's cosine similarity clears the threshold. -/
theorem empty_search_outcomes_are_empty_lists
    (docRes : Except String (Option Document)) (query : List ℚ) (limit : Nat)
    (threshold : ℚ) :
    search_chunks docRes (.ok []) query limit threshold = []
  ∧ (∀ chunks : List Chunk, (∀ c ∈ chunks, c.embedding = none) →
      search_chunks docRes (.ok chunks) query limit threshold = [])
  ∧ (∀ chunks : List Chunk,
      (∀ c ∈ chunks, ∀ e, c.embedding = some e → cosSim query e < (threshold : ℝ)) →
      search_chunks docRes (.ok chunks) query limit threshold = []) := by
  refine ⟨?_, ?_, ?_⟩
  · exact search_chunks_trivial_nil _ _ _ _ _
      (fun d chunks _ hc _ => Or.inl (by cases hc; rfl))
  · intro chunks hnone
    refine search_chunks_trivial_nil _ _ _ _ _ ?_
    intro d chunks' _ hc _
    cases hc
    refine Or.inr (List.filterMap_eq_nil.mpr ?_)
    intro c hc
    exact scoreChunk_eq_none_of_degenerate _ _ _ (Or.inl (hnone c hc))
  · intro chunks hlow
    refine search_chunks_trivial_nil _ _ _ _ _ ?_
    intro d chunks' _ hc _
    cases hc
    refine Or.inr (List.filterMap_eq_nil.mpr ?_)
    intro c hc
    cases hemb : c.embedding with
    | none => exact scoreChunk_eq_none_of_degenerate _ _ _ (Or.inl hemb)
    | some e =>
      rw [scoreChunk, hemb]
      dsimp only
      split_ifs with h1 h2 h3 h4 <;> try rfl
      exact absurd h4 (not_le.mpr (hlow c hc e hemb))

/-- Witness for C4: a chunk without embedding, and a chunk orthogonal
to the query (similarity 0 < 1/2). -/
theorem empty_search_outcomes_witness :
    (∀ c ∈ [chunkNoEmb], c.embedding = none)
  ∧ search_chunks (.ok (some completedDoc)) (.ok [chunkNoEmb]) [1] 3 (1 / 2) = []
  ∧ (∀ c ∈ [chunkOrtho], ∀ e, c.embedding = some e →
      cosSim [1, 0] e < ((1 / 2 : ℚ) : ℝ))
  ∧ search_chunks (.ok (some completedDoc)) (.ok [chunkOrtho]) [1, 0] 3 (1 / 2)
      = [] := by
  have hnone : ∀ c ∈ [chunkNoEmb], c.embedding = none := by
    intro c hc
    simp at hc
    subst hc
    rfl
  have hlow : ∀ c ∈ [chunkOrtho], ∀ e, c.embedding = some e →
      cosSim [1, 0] e < ((1 / 2 : ℚ) : ℝ) := by
    intro c hc e he
    simp at hc
    subst hc
    have he2 : e = [0, 1] := by simpa [chunkOrtho] using he.symm
    subst he2
    have hdot : dotQ [1, 0] [0, 1] = 0 := by norm_num [dotQ]
    rw [cosSim, hdot]
    norm_num
  exact ⟨hnone,
    (empty_search_outcomes_are_empty_lists _ [1] 3 (1 / 2)).2.1 _ hnone,
    hlow,
    (empty_search_outcomes_are_empty_lists _ [1, 0] 3 (1 / 2)).2.2 _ hlow⟩

/-! ## C5: degenerate chunks are skipped, the rest still scored -/

/-- C5: a chunk with an absent, empty, zero-norm or
dimensionality-mismatched embedding contributes nothing to the search —
removing it from the chunk list leaves the result unchanged (the
remaining chunks are still scored and the search does not raise) — and
whenever a chunk is actually scored, the cosine-similarity denominator
is provably non-zero. -/
theorem degenerate_chunks_are_skipped (d : Document) (pre post : List Chunk)
    (bad : Chunk) (query : List ℚ) (limit : Nat) (threshold : ℚ)
    (hbad : bad.embedding = none ∨ bad.embedding = some [] ∨
      (∃ e, bad.embedding = some e ∧ normSq e = 0) ∨
      (∃ e, bad.embedding = some e ∧ e.length ≠ query.length)) :
    search_chunks (.ok (some d)) (.ok (pre ++ bad :: post)) query limit threshold
      = search_chunks (.ok (some d)) (.ok (pre ++ post)) query limit threshold
  ∧ ∀ (c : Chunk) (e : List ℚ) (r : SearchResult), c.embedding = some e →
      scoreChunk query threshold c = some r →
      Real.sqrt (normSq query) * Real.sqrt (normSq e) ≠ 0 := by
  constructor
  · have hskip : scoreChunk query threshold bad = none :=
      scoreChunk_eq_none_of_degenerate _ _ _ hbad
    have hfm : (pre ++ bad :: post).filterMap (scoreChunk query threshold)
        = (pre ++ post).filterMap (scoreChunk query threshold) := by
      rw [List.filterMap_append, List.filterMap_cons, hskip,
        List.filterMap_append]
    by_cases hst : d.status = .completed
    · by_cases hpp : pre ++ post = []
      · rw [search_chunks_pipeline d _ query limit threshold hst (by simp)]
        have : search_chunks (.ok (some d)) (.ok (pre ++ post)) query limit
            threshold = [] := by
          rw [search_chunks.eq_def]
          simp [hst, hpp]
        rw [this, hfm, hpp]
        simp [sortBySimilarity]
      · rw [search_chunks_pipeline d _ query limit threshold hst (by simp),
          search_chunks_pipeline d _ query limit threshold hst hpp, hfm]
    · rw [search_chunks.eq_def, search_chunks.eq_def]
      simp [hst]
  · intro c e r he hs
    obtain ⟨_, _, e', he', _, hq, hz⟩ := scoreChunk_some query threshold c r hs
    rw [he] at he'
    cases he'
    have hq' : (0 : ℝ) < Real.sqrt (normSq query) := by
      rw [Real.sqrt_pos]
      exact_mod_cast lt_of_le_of_ne (normSq_nonneg query) (Ne.symm hq)
    have hz' : (0 : ℝ) < Real.sqrt (normSq e) := by
      rw [Real.sqrt_pos]
      exact_mod_cast lt_of_le_of_ne (normSq_nonneg e) (Ne.symm hz)
    exact ne_of_gt (mul_pos hq' hz')

/-- Witness for C5: a zero-norm chunk between two others. -/
theorem degenerate_chunks_are_skipped_witness :
    (chunkZeroNorm.embedding = none ∨ chunkZeroNorm.embedding = some [] ∨
      (∃ e, chunkZeroNorm.embedding = some e ∧ normSq e = 0) ∨
      (∃ e, chunkZeroNorm.embedding = some e ∧
        e.length ≠ ([1, 0] : List ℚ).length))
  ∧ search_chunks (.ok (some completedDoc))
      (.ok [chunkAligned, chunkZeroNorm, chunkOrtho]) [1, 0] 3 (1 / 2)
    = search_chunks (.ok (some completedDoc))
      (.ok [chunkAligned, chunkOrtho]) [1, 0] 3 (1 / 2) := by
  have hbad : chunkZeroNorm.embedding = none ∨
      chunkZeroNorm.embedding = some [] ∨
      (∃ e, chunkZeroNorm.embedding = some e ∧ normSq e = 0) ∨
      (∃ e, chunkZeroNorm.embedding = some e ∧
        e.length ≠ ([1, 0] : List ℚ).length) :=
    Or.inr (Or.inr (Or.inl ⟨[0, 0], rfl, by norm_num [normSq]⟩))
  exact ⟨hbad,
    (degenerate_chunks_are_skipped completedDoc [chunkAligned] [chunkOrtho]
      chunkZeroNorm [1, 0] 3 (1 / 2) hbad).1⟩

/-! ## C3: the full search output postcondition -/

theorem orderedInsert_tie (x : SearchResult) (l : List SearchResult)
    (hl : l.Pairwise fun a b =>
      a.similarity = b.similarity → a.chunk_number < b.chunk_number)
    (hx : ∀ y ∈ l, x.chunk_number < y.chunk_number) :
    (List.orderedInsert (fun a b => b.similarity ≤ a.similarity) x l).Pairwise
      (fun a b => a.similarity = b.similarity → a.chunk_number < b.chunk_number) := by
  induction l with
  | nil => exact List.pairwise_singleton _ _
  | cons y l ih =>
    rw [List.orderedInsert]
    split_ifs with hr
    · refine List.Pairwise.cons ?_ hl
      intro z hz _
      exact hx z hz
    · refine List.Pairwise.cons ?_ (ih hl.of_cons fun z hz => hx z (by simp [hz]))
      intro z hz
      rcases (List.mem_orderedInsert _).mp hz with rfl | hz'
      · intro hsim
        exact absurd (le_of_eq hsim) hr
      · exact (List.pairwise_cons.mp hl).1 z hz'

theorem sortBySimilarity_tie (l : List SearchResult)
    (h : l.Pairwise fun a b => a.chunk_number < b.chunk_number) :
    (sortBySimilarity l).Pairwise
      (fun a b => a.similarity = b.similarity → a.chunk_number < b.chunk_number) := by
  induction l with
  | nil => exact List.Pairwise.nil
  | cons x l ih =>
    rw [sortBySimilarity, List.insertionSort]
    refine orderedInsert_tie x _ (ih h.of_cons) ?_
    intro y hy
    have : y ∈ l :=
      (List.perm_insertionSort (fun a b => b.similarity ≤ a.similarity) l).subset
        (by simpa [sortBySimilarity] using hy)
    exact (List.pairwise_cons.mp h).1 y this

/-- C3: every result of `search_chunks` scores at least the
similarity threshold; results are sorted descending by score; two
results of equal score are ordered by ascending chunk sequence index
(provided the chunk store returns chunks ordered by sequence index, as
`get_document_chunks` does via `.order("chunk_number")`); and at most
`limit` results are returned. -/
theorem search_results_postcondition (docRes : Except String (Option Document))
    (chunksRes : Except String (List Chunk)) (query : List ℚ) (limit : Nat)
    (threshold : ℚ)
    (hord : ∀ chunks, chunksRes = .ok chunks →
      chunks.Pairwise fun a b => a.chunk_number < b.chunk_number) :
    (∀ r ∈ search_chunks docRes chunksRes query limit threshold,
        (threshold : ℝ) ≤ r.similarity)
  ∧ (search_chunks docRes chunksRes query limit threshold).Pairwise
      (fun a b => b.similarity ≤ a.similarity)
  ∧ (search_chunks docRes chunksRes query limit threshold).Pairwise
      (fun a b => a.similarity = b.similarity → a.chunk_number < b.chunk_number)
  ∧ (search_chunks docRes chunksRes query limit threshold).length ≤ limit := by
  have trivial_nil : ∀ res : List SearchResult, res = [] →
      (∀ r ∈ res, (threshold : ℝ) ≤ r.similarity)
    ∧ res.Pairwise (fun a b => b.similarity ≤ a.similarity)
    ∧ res.Pairwise
        (fun a b => a.similarity = b.similarity → a.chunk_number < b.chunk_number)
    ∧ res.length ≤ limit := by
    intro res hres
    subst hres
    exact ⟨(by intro r hr; cases hr), List.Pairwise.nil, List.Pairwise.nil,
      (by simp)⟩
  cases docRes with
  | error e => exact trivial_nil _ (by rw [search_chunks])
  | ok od =>
    cases od with
    | none => exact trivial_nil _ (by rw [search_chunks])
    | some d =>
      by_cases hst : d.status = .completed
      · cases chunksRes with
        | error e =>
          refine trivial_nil _ ?_
          rw [search_chunks.eq_def]
          simp [hst]
        | ok chunks =>
          by_cases hch : chunks = []
          · refine trivial_nil _ ?_
            rw [search_chunks.eq_def]
            simp [hst, hch]
          · rw [search_chunks_pipeline d chunks query limit threshold hst hch]
            have hresults := hord chunks rfl
            set results := chunks.filterMap (scoreChunk query threshold) with hres
            have hmem : ∀ r ∈ (sortBySimilarity results).take limit,
                r ∈ results := by
              intro r hr
              exact (List.perm_insertionSort
                (fun a b => b.similarity ≤ a.similarity) results).subset
                ((List.take_sublist _ _).subset hr)
            refine ⟨?_, ?_, ?_, ?_⟩
            · intro r hr
              obtain ⟨c, _, hc⟩ := List.mem_filterMap.mp (hmem r hr)
              exact (scoreChunk_some query threshold c r hc).1
            · exact List.Pairwise.sublist (List.take_sublist _ _)
                (by rw [sortBySimilarity]; exact List.sorted_insertionSort _ results)
            · refine List.Pairwise.sublist (List.take_sublist _ _) ?_
              refine sortBySimilarity_tie results ?_
              refine List.pairwise_filterMap.mpr ?_
              refine hresults.imp_of_mem ?_
              intro a b _ _ hab r hr r' hr'
              rw [(scoreChunk_some query threshold a r hr).2.1,
                (scoreChunk_some query threshold b r' hr').2.1]
              exact hab
            · calc ((sortBySimilarity results).take limit).length
                  = min limit (sortBySimilarity results).length :=
                    List.length_take _ _
                _ ≤ limit := min_le_left _ _
      · refine trivial_nil _ ?_
        rw [search_chunks.eq_def]
        simp [hst]

/-- Witness for C3 at a concrete ordered chunk list. -/
theorem search_results_postcondition_witness :
    (∀ chunks,
      (.ok [chunkAligned, chunkZeroNorm] : Except String (List Chunk))
        = .ok chunks →
      chunks.Pairwise fun a b => a.chunk_number < b.chunk_number)
  ∧ (search_chunks (.ok (some completedDoc)) (.ok [chunkAligned, chunkZeroNorm])
      [1, 0] 3 (1 / 2)).length ≤ 3 := by
  have hord : ∀ chunks,
      (.ok [chunkAligned, chunkZeroNorm] : Except String (List Chunk))
        = .ok chunks →
      chunks.Pairwise fun a b => a.chunk_number < b.chunk_number := by
    intro chunks h
    injection h with h2
    subst h2
    decide
  exact ⟨hord,
    (search_results_postcondition (.ok (some completedDoc))
      (.ok [chunkAligned, chunkZeroNorm]) [1, 0] 3 (1 / 2) hord).2.2.2⟩

/-! ## C7: a failing embedding provider is swallowed upstream -/

theorem embedBatches_single_error (env : ChatEnv) (attempt : Nat)
    (msg e : String) (tr : List ProviderCall)
    (he : env.embedContent attempt [msg] = .error e) :
    embedBatches env attempt [[msg]] tr = (.error e, tr ++ [.embedCall]) := by
  rw [embedBatches, he]

theorem getEmbedsLoop_error (env : ChatEnv) (msg : String)
    (hemb : ∀ n, ∃ e, env.embedContent n [msg] = .error e) :
    ∀ fuel attempt lastErr tr, ∃ e tr2,
      getEmbedsLoop env [msg] fuel attempt lastErr tr = (.error e, tr2) := by
  intro fuel
  induction fuel with
  | zero => intro attempt lastErr tr; exact ⟨lastErr, tr, rfl⟩
  | succ fuel ih =>
    intro attempt lastErr tr
    obtain ⟨e, he⟩ := hemb attempt
    rw [getEmbedsLoop,
      show batched [msg] = [[msg]] from rfl,
      embedBatches_single_error env attempt msg e tr he]
    exact ih (attempt + 1) e (tr ++ [.embedCall])

theorem retrieve_embed_failure_gives_nil (env : ChatEnv) (msg : String)
    (top_k : Nat) (hemb : ∀ n, ∃ e, env.embedContent n [msg] = .error e) :
    ∃ tr, retrieve_relevant_chunks env msg top_k = ([], tr) := by
  obtain ⟨e, tr2, h⟩ :=
    getEmbedsLoop_error env msg hemb 3 0 "no attempt was made" []
  refine ⟨tr2, ?_⟩
  rw [retrieve_relevant_chunks, get_embeddings, h]

/-- C7 (counterexample to the claim as stated): with a completed
document and an embedding provider that raises on every attempt,
`generate_response` returns the "no relevant information" message —
not the "search temporarily unavailable" one — because
`retrieve_relevant_chunks` swallows the provider failure into `[]`,
which is indistinguishable from an empty search result; the
`searchUnavailableMsg` handler is unreachable for embedding failures. -/
theorem embed_failure_wrong_message_counterexample :
    (generate_response embedDownEnv "what color is the sky?").1.message
      = noRelevantMsg
  ∧ (generate_response embedDownEnv "what color is the sky?").1.sources = []
  ∧ noRelevantMsg ≠ searchUnavailableMsg := by
  refine ⟨rfl, rfl, ?_⟩
  decide

/-- C7 (amended): when the embedding provider raises on every attempt,
`generate_response` on a completed document does not propagate the
exception: it returns a successful-shaped response with empty sources —
but its message is the "no relevant information" message, not the
"search temporarily unavailable" one. -/
theorem embed_failure_soft_fails (env : ChatEnv) (d : Document) (msg : String)
    (hdoc : env.getDocument = .ok (some d)) (hst : d.status = .completed)
    (hemb : ∀ n, ∃ e, env.embedContent n [msg] = .error e) :
    (generate_response env msg).1 = { message := noRelevantMsg, sources := [] } := by
  obtain ⟨tr, hr⟩ := retrieve_embed_failure_gives_nil env msg 3 hemb
  rw [generate_response.eq_def, hdoc]
  dsimp only
  rw [if_neg (by simp [hst]), hr]
  rfl

/-- Witness for the amended C7 at the concrete failing environment. -/
theorem embed_failure_soft_fails_witness :
    (generate_response embedDownEnv "q").1
      = { message := noRelevantMsg, sources := [] } :=
  embed_failure_soft_fails embedDownEnv completedDoc "q" rfl rfl
    (fun _ => ⟨"provider down", rfl⟩)

/-! ## C9: failed ingestion always persists a failed status -/

theorem outerFail_spec (env : ProcEnv) (hupd : env.updateOk = true)
    (s : DocState) (e : Text) :
    (outerFail env s e).1 = .error e ∧ (outerFail env s e).2.status = .failed ∧
      ∃ m, (outerFail env s e).2.error_message = some m ∧ m.length ≤ 513 := by
  rw [outerFail, updateStatus, if_pos hupd]
  refine ⟨rfl, rfl, _, rfl, ?_⟩
  rw [List.length_append, List.length_take]
  have h13 : ("Fatal error: ".toList).length = 13 := rfl
  omega

theorem innerFail_spec (env : ProcEnv) (hupd : env.updateOk = true)
    (s : DocState) (e : Text) :
    (innerFail env s e).1 = .error e ∧ (innerFail env s e).2.status = .failed ∧
      ∃ m, (innerFail env s e).2.error_message = some m ∧ m.length ≤ 513 := by
  rw [innerFail]
  exact outerFail_spec env hupd _ e

/-- C9: provided the status store accepts updates, no terminated run of
`process_document` leaves the document in `processing`; every run that
ends in failure has first persisted status `failed` together with a
truncated (at most 513-character) error message. -/
theorem failed_ingestion_persists_failed_status (env : ProcEnv) (s0 : DocState)
    (hupd : env.updateOk = true) :
    (process_document env s0).2.status ≠ .processing
  ∧ ∀ e, (process_document env s0).1 = .error e →
      (process_document env s0).2.status = .failed
      ∧ ∃ m, (process_document env s0).2.error_message = some m ∧
          m.length ≤ 513 := by
  suffices h : ((process_document env s0).2.status = .failed ∧
      ∃ m, (process_document env s0).2.error_message = some m ∧ m.length ≤ 513)
    ∨ ((process_document env s0).2.status = .completed ∧
      (process_document env s0).1 = .ok ()) by
    rcases h with ⟨hf, hm⟩ | ⟨hc, ho⟩
    · exact ⟨by simp [hf], fun e _ => ⟨hf, hm⟩⟩
    · refine ⟨by simp [hc], fun e he => ?_⟩
      rw [ho] at he
      cases he
  rw [process_document.eq_def, updateStatus, if_pos hupd]
  try dsimp only
  cases hgd : env.getDoc with
  | error e => exact Or.inl ⟨(outerFail_spec env hupd _ _).2.1,
      (outerFail_spec env hupd _ _).2.2⟩
  | ok od =>
    cases od with
    | none => exact Or.inl ⟨(outerFail_spec env hupd _ _).2.1,
        (outerFail_spec env hupd _ _).2.2⟩
    | some doc =>
      cases hdl : env.download with
      | error e => exact Or.inl ⟨(innerFail_spec env hupd _ _).2.1,
          (innerFail_spec env hupd _ _).2.2⟩
      | ok bytes =>
        try dsimp only
        by_cases hb : bytes = []
        · rw [if_pos hb]
          exact Or.inl ⟨(innerFail_spec env hupd _ _).2.1,
            (innerFail_spec env hupd _ _).2.2⟩
        · rw [if_neg hb]
          cases hex : env.extract with
          | error e => exact Or.inl ⟨(innerFail_spec env hupd _ _).2.1,
              (innerFail_spec env hupd _ _).2.2⟩
          | ok text =>
            try dsimp only
            by_cases hstrip : strip text = []
            · rw [if_pos hstrip]
              exact Or.inl ⟨(innerFail_spec env hupd _ _).2.1,
                (innerFail_spec env hupd _ _).2.2⟩
            · rw [if_neg hstrip]
              try dsimp only
              by_cases hch : chunk_text text 800 100 = []
              · rw [if_pos hch]
                exact Or.inl ⟨(innerFail_spec env hupd _ _).2.1,
                  (innerFail_spec env hupd _ _).2.2⟩
              · rw [if_neg hch]
                cases hge : generate_embeddings (chunk_text text 800 100)
                    env.provider with
                | error e => exact Or.inl ⟨(innerFail_spec env hupd _ _).2.1,
                    (innerFail_spec env hupd _ _).2.2⟩
                | ok withEmb =>
                  try dsimp only
                  by_cases hv : withEmb.filter (fun c => c.embedding ≠ none) = []
                  · rw [if_pos hv]
                    exact Or.inl ⟨(innerFail_spec env hupd _ _).2.1,
                      (innerFail_spec env hupd _ _).2.2⟩
                  · rw [if_neg hv, updateStatus, if_pos hupd]
                    exact Or.inr ⟨rfl, rfl⟩

/-- Witness for C9: a run whose download step fails, against a status
store that accepts updates. -/
theorem failed_ingestion_persists_failed_status_witness :
    (({ getDoc := .ok (some completedDoc), download := .error ['x'],
        extract := .ok [], provider := .ok none, storeOk := fun _ => true,
        updateOk := true } : ProcEnv).updateOk = true)
  ∧ (process_document
      { getDoc := .ok (some completedDoc), download := .error ['x'],
        extract := .ok [], provider := .ok none, storeOk := fun _ => true,
        updateOk := true }
      { status := .pending, error_message := none }).2.status ≠ .processing := by
  refine ⟨rfl, ?_⟩
  exact (failed_ingestion_persists_failed_status _ _ rfl).1

end PdfRag
